import Mathlib

/-!
Verification of the Tiny-Shading-Language (TSL) core against its
specification.

The repository's visible sources are the public headers
(`shading_system.h`, `shading_context.h`), the sample renderer integration
(`rt_tsl.cpp`) and a test helper (`test_common.h`).  The closure registry,
the shader-group graph algorithms and instance resolution are declared in
the headers but their implementation files are not part of the visible
sources, so those components are modelled from the specification (each
such definition carries a doc comment starting with `Modelled from the
spec:`).  The sample host's bump allocator and `get_bxdf` are translated
directly from `rt_tsl.cpp`.
-/

namespace TslSpec

/-- Error taxonomy of the specification (section 7): name conflicts, graph
errors, type errors, compile errors and resolution errors, refined into
the individual error kinds named throughout the spec. -/
inductive TslError where
  | DuplicateNameConflict
  | DuplicateUnitName
  | MultipleRootsError
  | NoRootError
  | UnknownUnit
  | UnknownParameter
  | DirectionMismatch
  | TypeMismatch
  | AlreadyConnectedInput
  | CyclicDependencyError
  | UnboundInputError
  | CompileError
  | ResolutionError
deriving DecidableEq, Repr

/-- The spec's `GraphError` family: cyclic dependency, unbound input,
missing root, multiple roots, disallowed fan-in. -/
def TslError.isGraphError : TslError → Bool
  | .CyclicDependencyError => true
  | .UnboundInputError => true
  | .NoRootError => true
  | .MultipleRootsError => true
  | .AlreadyConnectedInput => true
  | _ => false

/-! ## Closure registry (`ShadingSystem::register_closure_type`) -/

/-- One field of a closure type: name and semantic type tag
(`ClosureVarList` entries in `shading_system.h`). -/
structure ClosureVar where
  var_name : String
  var_type : String
deriving DecidableEq, Repr

/-- One registered closure type: name, ordered field list, total record
size and the process-assigned id. -/
structure ClosureRegistryEntry where
  cname : String
  cfields : List ClosureVar
  csize : Nat
  cid : Nat
deriving DecidableEq, Repr

/-- Reserved invalid closure id (`INVALID_CLOSURE_ID`), never assigned to
a registered closure. -/
def INVALID_CLOSURE_ID : Nat := 0

/-- The process-wide closure registry: registered entries plus the next
id to hand out.  Ids are dense, starting right above the reserved
sentinel 0. -/
structure ClosureRegistry where
  entries : List ClosureRegistryEntry
  next_id : Nat
deriving DecidableEq, Repr

/-- The registry at process start: no entries, first id to assign is 1. -/
def ClosureRegistry.empty : ClosureRegistry := ⟨[], 1⟩

/-- Modelled from the spec: `ShadingSystem::register_closure_type`
(declared in `shading_system.h`; the implementation file is not among the
visible sources).  Per spec 4.1: fails with `DuplicateNameConflict` if the
name is already registered with a different field list or size; succeeds
idempotently, returning the existing id, if the field list and size match
a prior registration; otherwise records the new type under a fresh id. -/
def register_closure_type (r : ClosureRegistry) (name : String)
    (fields : List ClosureVar) (size : Nat) :
    Except TslError (ClosureRegistry × Nat) :=
  match r.entries.find? (fun e => e.cname == name) with
  | some e =>
      if e.cfields = fields ∧ e.csize = size then .ok (r, e.cid)
      else .error .DuplicateNameConflict
  | none =>
      .ok (⟨r.entries ++ [⟨name, fields, size, r.next_id⟩], r.next_id + 1⟩,
           r.next_id)

/-- Unfolding equation for `register_closure_type` when the name is found
in the registry. -/
theorem register_closure_type_eq_found (r : ClosureRegistry) (name : String)
    (fields : List ClosureVar) (size : Nat) (e : ClosureRegistryEntry)
    (hfind : r.entries.find? (fun e => e.cname == name) = some e) :
    register_closure_type r name fields size =
      if e.cfields = fields ∧ e.csize = size then .ok (r, e.cid)
      else .error .DuplicateNameConflict := by
  unfold register_closure_type
  rw [hfind]

/-- Unfolding equation for `register_closure_type` when the name is not
yet registered. -/
theorem register_closure_type_eq_not_found (r : ClosureRegistry)
    (name : String) (fields : List ClosureVar) (size : Nat)
    (hfind : r.entries.find? (fun e => e.cname == name) = none) :
    register_closure_type r name fields size =
      .ok (⟨r.entries ++ [⟨name, fields, size, r.next_id⟩], r.next_id + 1⟩,
           r.next_id) := by
  unfold register_closure_type
  rw [hfind]

/-- C4: registering the same name with an identical field list and size
twice returns the same `ClosureID` both times (and leaves the registry
unchanged the second time); registering the same name again with a
different field list or size fails with the name-conflict error instead
of returning any id. -/
theorem register_closure_type_idempotent_conflict
    (r r' : ClosureRegistry) (name : String)
    (fields fields2 : List ClosureVar) (size size2 : Nat) (id : Nat)
    (h : register_closure_type r name fields size = .ok (r', id)) :
    register_closure_type r' name fields size = .ok (r', id) ∧
    (¬(fields2 = fields ∧ size2 = size) →
      register_closure_type r' name fields2 size2 =
        .error .DuplicateNameConflict) := by
  cases hfind : r.entries.find? (fun e => e.cname == name) with
  | some e =>
      rw [register_closure_type_eq_found r name fields size e hfind] at h
      by_cases hm : e.cfields = fields ∧ e.csize = size
      · rw [if_pos hm] at h
        injection h with h
        injection h with hr hid
        subst hr
        subst hid
        constructor
        · rw [register_closure_type_eq_found r name fields size e hfind,
            if_pos hm]
        · intro hne
          rw [register_closure_type_eq_found r name fields2 size2 e hfind,
            if_neg ?_]
          rintro ⟨h1, h2⟩
          exact hne ⟨h1.symm.trans hm.1, h2.symm.trans hm.2⟩
      · rw [if_neg hm] at h
        exact Except.noConfusion h
  | none =>
      rw [register_closure_type_eq_not_found r name fields size hfind] at h
      injection h with h
      injection h with hr hid
      subst hr
      subst hid
      have hfind' :
          (r.entries ++
            [ClosureRegistryEntry.mk name fields size r.next_id]).find?
            (fun e => e.cname == name) =
          some (ClosureRegistryEntry.mk name fields size r.next_id) := by
        rw [List.find?_append, hfind]
        simp
      constructor
      · rw [register_closure_type_eq_found _ name fields size _ hfind',
          if_pos ⟨rfl, rfl⟩]
      · intro hne
        rw [register_closure_type_eq_found _ name fields2 size2 _ hfind',
          if_neg ?_]
        rintro ⟨h1, h2⟩
        exact hne ⟨h1.symm, h2.symm⟩

/-- Witness for C4 at a concrete registry: registering `lambert` twice in
the empty registry returns id 1 both times, and re-registering it with a
different size is a `DuplicateNameConflict`. -/
theorem register_closure_type_idempotent_conflict_witness :
    register_closure_type
      (ClosureRegistry.mk [⟨"lambert", [⟨"base_color", "float3"⟩], 12, 1⟩] 2)
      "lambert" [⟨"base_color", "float3"⟩] 12 =
      .ok (ClosureRegistry.mk
        [⟨"lambert", [⟨"base_color", "float3"⟩], 12, 1⟩] 2, 1) ∧
    register_closure_type
      (ClosureRegistry.mk [⟨"lambert", [⟨"base_color", "float3"⟩], 12, 1⟩] 2)
      "lambert" [⟨"base_color", "float3"⟩] 16 =
      .error .DuplicateNameConflict := by
  have h := register_closure_type_idempotent_conflict
    ClosureRegistry.empty
    (ClosureRegistry.mk [⟨"lambert", [⟨"base_color", "float3"⟩], 12, 1⟩] 2)
    "lambert" [⟨"base_color", "float3"⟩] [⟨"base_color", "float3"⟩] 12 16 1
    rfl
  exact ⟨h.1, h.2 (by decide)⟩

/-! ## Shader group template construction
(`ShaderGroupTemplate::add_shader_unit`, `connect_shader_units`,
`expose_shader_argument`, `init_shader_input` in `shading_context.h`) -/

/-- One parameter of a shader unit: name, direction, semantic type tag
and whether the template declares a default value for it. -/
structure ShaderParam where
  pname : String
  is_output : Bool
  ptype : String
  has_default : Bool
deriving DecidableEq, Repr

/-- A shader unit template as seen by group composition: its fixed
parameter list. -/
structure ShaderUnitTemplateM where
  params : List ShaderParam
deriving DecidableEq, Repr

/-- A directed parameter-to-parameter connection between two member
units of a group. -/
structure Connection where
  src_unit : String
  src_param : String
  tgt_unit : String
  tgt_param : String
deriving DecidableEq, Repr

/-- The state of a shader group template under construction: member
units in insertion order, the designated root, the connection set, the
explicit input default overrides and the exposed group-level
arguments. -/
structure ShaderGroupTemplateM where
  units : List (String × ShaderUnitTemplateM)
  root : Option String
  connections : List Connection
  input_defaults : List (String × String)
  exposed : List (String × String × String)
deriving DecidableEq, Repr

/-- A freshly begun shader group (`begin_shader_group_template`). -/
def ShaderGroupTemplateM.begin : ShaderGroupTemplateM := ⟨[], none, [], [], []⟩

/-- Look up a member unit of a group by its name. -/
def find_unit (g : ShaderGroupTemplateM) (n : String) :
    Option ShaderUnitTemplateM :=
  (g.units.find? (fun p => p.1 == n)).map Prod.snd

/-- Look up a parameter of a unit by its name. -/
def find_param (u : ShaderUnitTemplateM) (pn : String) : Option ShaderParam :=
  u.params.find? (fun p => p.pname == pn)

/-- Whether some connection of the group already targets the given input
parameter. -/
def has_incoming (g : ShaderGroupTemplateM) (tu tp : String) : Bool :=
  g.connections.any (fun c => c.tgt_unit == tu && c.tgt_param == tp)

/-- Modelled from the spec: `ShaderGroupTemplate::add_shader_unit`
(declared in `shading_context.h`; implementation not among the visible
sources).  Per spec 4.3: fails with `DuplicateUnitName` on a name
collision, fails with `MultipleRootsError` if a root is already set and
`is_root` is requested again, otherwise appends the member unit (so the
member list records insertion order). -/
def add_shader_unit (g : ShaderGroupTemplateM) (name : String)
    (su : ShaderUnitTemplateM) (is_root : Bool) :
    Except TslError ShaderGroupTemplateM :=
  if g.units.any (fun p => p.1 == name) then .error .DuplicateUnitName
  else if is_root = true ∧ g.root.isSome = true then .error .MultipleRootsError
  else .ok { g with units := g.units ++ [(name, su)],
                    root := if is_root then some name else g.root }

/-- Modelled from the spec: `ShaderGroupTemplate::connect_shader_units`
(declared in `shading_context.h`; implementation not among the visible
sources).  Per spec 4.3: fails with `UnknownUnit`/`UnknownParameter` if an
endpoint does not exist, `DirectionMismatch` if the source is not an
output or the target not an input, `TypeMismatch` if the semantic types
differ, `AlreadyConnectedInput` if the target input already has an
incoming connection (fan-in disallowed); otherwise records the edge. -/
def connect_shader_units (g : ShaderGroupTemplateM)
    (ssu sspn tsu tspn : String) : Except TslError ShaderGroupTemplateM :=
  match find_unit g ssu with
  | none => .error .UnknownUnit
  | some su =>
    match find_unit g tsu with
    | none => .error .UnknownUnit
    | some tu =>
      match find_param su sspn with
      | none => .error .UnknownParameter
      | some sp =>
        match find_param tu tspn with
        | none => .error .UnknownParameter
        | some tp =>
          if sp.is_output = false ∨ tp.is_output = true then
            .error .DirectionMismatch
          else if sp.ptype ≠ tp.ptype then .error .TypeMismatch
          else if has_incoming g tsu tspn = true then
            .error .AlreadyConnectedInput
          else .ok { g with connections :=
                      g.connections ++ [⟨ssu, sspn, tsu, tspn⟩] }

/-- Modelled from the spec: `init_shader_input` records a constant
default for an input that will remain unconnected. -/
def init_shader_input (g : ShaderGroupTemplateM) (su spn : String) :
    ShaderGroupTemplateM :=
  { g with input_defaults := g.input_defaults ++ [(su, spn)] }

/-- A successful `connect_shader_units` call leaves everything but the
connection list unchanged, appends exactly the requested edge, and
certifies that all its validity checks passed. -/
theorem connect_shader_units_ok_eq (g g' : ShaderGroupTemplateM)
    (a b c d : String)
    (h : connect_shader_units g a b c d = .ok g') :
    g' = { g with connections := g.connections ++ [⟨a, b, c, d⟩] } ∧
    ∃ su tu sp tp,
      find_unit g a = some su ∧ find_unit g c = some tu ∧
      find_param su b = some sp ∧ find_param tu d = some tp ∧
      sp.is_output = true ∧ tp.is_output = false ∧ sp.ptype = tp.ptype ∧
      has_incoming g c d = false := by
  unfold connect_shader_units at h
  split at h
  · exact Except.noConfusion h
  · rename_i su hsu
    split at h
    · exact Except.noConfusion h
    · rename_i tu htu
      split at h
      · exact Except.noConfusion h
      · rename_i sp hsp
        split at h
        · exact Except.noConfusion h
        · rename_i tp htp
          split at h
          · exact Except.noConfusion h
          · rename_i hdir
            split at h
            · exact Except.noConfusion h
            · rename_i hty
              split at h
              · exact Except.noConfusion h
              · rename_i hin
                injection h with h
                refine ⟨h.symm, su, tu, sp, tp, hsu, htu, hsp, htp, ?_, ?_,
                  not_not.mp hty, Bool.eq_false_iff.mpr hin⟩
                · cases hb : sp.is_output with
                  | false => exact absurd (Or.inl hb) hdir
                  | true => rfl
                · cases hb : tp.is_output with
                  | false => rfl
                  | true => exact absurd (Or.inr hb) hdir

/-- When every validity check of `connect_shader_units` passes, the call
succeeds and appends the edge. -/
theorem connect_shader_units_ok_of_checks (g : ShaderGroupTemplateM)
    (a b c d : String) (su tu : ShaderUnitTemplateM) (sp tp : ShaderParam)
    (hsu : find_unit g a = some su) (htu : find_unit g c = some tu)
    (hsp : find_param su b = some sp) (htp : find_param tu d = some tp)
    (hso : sp.is_output = true) (hto : tp.is_output = false)
    (hty : sp.ptype = tp.ptype) (hin : has_incoming g c d = false) :
    connect_shader_units g a b c d =
      .ok { g with connections := g.connections ++ [⟨a, b, c, d⟩] } := by
  unfold connect_shader_units
  simp only [hsu, htu, hsp, htp]
  rw [if_neg ?_, if_neg ?_, if_neg ?_]
  · rw [hin]; exact Bool.false_ne_true
  · rw [hty]; exact fun hc => hc rfl
  · rintro (h1 | h2)
    · rw [hso] at h1; exact Bool.noConfusion h1
    · rw [hto] at h2; exact Bool.noConfusion h2

/-- C3: once `connect_shader_units` has connected an input, any further
connect call from a valid, type-compatible output onto that same input
fails with `AlreadyConnectedInput` (so the edge is not added), while a
fan-out connect of the same source output onto a different input that
would itself accept the connection still succeeds. -/
theorem connect_shader_units_fanin_rejected_fanout_ok
    (g g1 g2 : ShaderGroupTemplateM)
    (ssu sspn tsu tspn s2 p2 tsu2 tspn2 : String)
    (su2 tu : ShaderUnitTemplateM) (sp2 tp : ShaderParam)
    (h : connect_shader_units g ssu sspn tsu tspn = .ok g1)
    (hsu2 : find_unit g1 s2 = some su2)
    (hsp2 : find_param su2 p2 = some sp2)
    (hout : sp2.is_output = true)
    (htu : find_unit g1 tsu = some tu)
    (htp : find_param tu tspn = some tp)
    (hty : sp2.ptype = tp.ptype)
    (h2 : connect_shader_units g ssu sspn tsu2 tspn2 = .ok g2)
    (hne : ¬(tsu2 = tsu ∧ tspn2 = tspn)) :
    connect_shader_units g1 s2 p2 tsu tspn = .error .AlreadyConnectedInput ∧
    connect_shader_units g1 ssu sspn tsu2 tspn2 =
      .ok { g1 with connections := g1.connections ++
              [⟨ssu, sspn, tsu2, tspn2⟩] } := by
  obtain ⟨hg1, su, tu', sp, tp', hfsu, hftu, hfsp, hftp, hspo, htpo, hspt,
    hinc⟩ := connect_shader_units_ok_eq g g1 ssu sspn tsu tspn h
  obtain ⟨hg2, su'', tu2, sp'', tp2, hfsu2, hftu2, hfsp2, hftp2, hspo2,
    htpo2, hspt2, hinc2⟩ := connect_shader_units_ok_eq g g2 ssu sspn tsu2
      tspn2 h2
  have hunits : g1.units = g.units := by rw [hg1]
  have hconn : g1.connections = g.connections ++ [⟨ssu, sspn, tsu, tspn⟩] := by
    rw [hg1]
  have hfind_eq : ∀ n, find_unit g1 n = find_unit g n := by
    intro n
    unfold find_unit
    rw [hunits]
  have htpo' : tp.is_output = false := by
    rw [hfind_eq tsu, hftu] at htu
    injection htu with htu
    subst htu
    rw [hftp] at htp
    injection htp with htp
    subst htp
    exact htpo
  constructor
  · unfold connect_shader_units
    simp only [hsu2, htu, hsp2, htp]
    rw [if_neg ?_, if_neg ?_, if_pos ?_]
    · unfold has_incoming
      rw [hconn, List.any_append]
      have hlast : (List.any [Connection.mk ssu sspn tsu tspn]
          (fun c => c.tgt_unit == tsu && c.tgt_param == tspn)) = true := by
        simp
      rw [hlast, Bool.or_true]
    · rw [hty]; exact fun hc => hc rfl
    · rintro (h1 | hx)
      · rw [hout] at h1; exact Bool.noConfusion h1
      · rw [htpo'] at hx; exact Bool.noConfusion hx
  · refine connect_shader_units_ok_of_checks g1 ssu sspn tsu2 tspn2 su'' tu2
      sp'' tp2 ?_ ?_ hfsp2 hftp2 hspo2 htpo2 hspt2 ?_
    · rw [hfind_eq ssu]; exact hfsu2
    · rw [hfind_eq tsu2]; exact hftu2
    · unfold has_incoming
      rw [hconn, List.any_append]
      unfold has_incoming at hinc2
      rw [hinc2, Bool.false_or]
      show (List.any [Connection.mk ssu sspn tsu tspn]
        (fun c => c.tgt_unit == tsu2 && c.tgt_param == tspn2)) = false
      simp only [List.any_cons, List.any_nil, Bool.or_false]
      show (tsu == tsu2 && tspn == tspn2) = false
      cases hb1 : tsu == tsu2 with
      | false => rw [Bool.false_and]
      | true =>
        cases hb2 : tspn == tspn2 with
        | false => rfl
        | true => exact absurd ⟨(eq_of_beq hb1).symm, (eq_of_beq hb2).symm⟩ hne

/-- Witness for C3: in a two-unit group with one output `o` on unit `a`
and two inputs `i1`, `i2` on root unit `b`, connecting `a.o → b.i1`,
then re-connecting onto `b.i1` fails with `AlreadyConnectedInput`, while
the fan-out connect `a.o → b.i2` succeeds. -/
theorem connect_shader_units_fanin_rejected_fanout_ok_witness :
    connect_shader_units
      (ShaderGroupTemplateM.mk
        [("a", ⟨[⟨"o", true, "color", false⟩]⟩),
         ("b", ⟨[⟨"i1", false, "color", false⟩,
                 ⟨"i2", false, "color", false⟩]⟩)]
        (some "b") [⟨"a", "o", "b", "i1"⟩] [] [])
      "a" "o" "b" "i1" = .error .AlreadyConnectedInput ∧
    connect_shader_units
      (ShaderGroupTemplateM.mk
        [("a", ⟨[⟨"o", true, "color", false⟩]⟩),
         ("b", ⟨[⟨"i1", false, "color", false⟩,
                 ⟨"i2", false, "color", false⟩]⟩)]
        (some "b") [⟨"a", "o", "b", "i1"⟩] [] [])
      "a" "o" "b" "i2" =
      .ok (ShaderGroupTemplateM.mk
        [("a", ⟨[⟨"o", true, "color", false⟩]⟩),
         ("b", ⟨[⟨"i1", false, "color", false⟩,
                 ⟨"i2", false, "color", false⟩]⟩)]
        (some "b") [⟨"a", "o", "b", "i1"⟩, ⟨"a", "o", "b", "i2"⟩] [] []) := by
  have h := connect_shader_units_fanin_rejected_fanout_ok
    (ShaderGroupTemplateM.mk
      [("a", ⟨[⟨"o", true, "color", false⟩]⟩),
       ("b", ⟨[⟨"i1", false, "color", false⟩,
               ⟨"i2", false, "color", false⟩]⟩)]
      (some "b") [] [] [])
    (ShaderGroupTemplateM.mk
      [("a", ⟨[⟨"o", true, "color", false⟩]⟩),
       ("b", ⟨[⟨"i1", false, "color", false⟩,
               ⟨"i2", false, "color", false⟩]⟩)]
      (some "b") [⟨"a", "o", "b", "i1"⟩] [] [])
    (ShaderGroupTemplateM.mk
      [("a", ⟨[⟨"o", true, "color", false⟩]⟩),
       ("b", ⟨[⟨"i1", false, "color", false⟩,
               ⟨"i2", false, "color", false⟩]⟩)]
      (some "b") [⟨"a", "o", "b", "i2"⟩] [] [])
    "a" "o" "b" "i1" "a" "o" "b" "i2"
    ⟨[⟨"o", true, "color", false⟩]⟩
    ⟨[⟨"i1", false, "color", false⟩, ⟨"i2", false, "color", false⟩]⟩
    ⟨"o", true, "color", false⟩ ⟨"i1", false, "color", false⟩
    rfl rfl rfl rfl rfl rfl rfl rfl (by decide)
  exact h

/-! ### Construction calls as state transitions (C8) -/

/-- Modelled from the spec: the state-and-report view of an
`add_shader_unit` call — the group state after the call paired with the
error reported at that call, if any (the C++ method mutates the group in
place and reports failure through its return value / the logging
callback). -/
def add_shader_unit_call (g : ShaderGroupTemplateM) (name : String)
    (su : ShaderUnitTemplateM) (is_root : Bool) :
    ShaderGroupTemplateM × Option TslError :=
  match add_shader_unit g name su is_root with
  | .ok g' => (g', none)
  | .error e => (g, some e)

/-- Modelled from the spec: the state-and-report view of a
`connect_shader_units` call. -/
def connect_shader_units_call (g : ShaderGroupTemplateM)
    (a b c d : String) : ShaderGroupTemplateM × Option TslError :=
  match connect_shader_units g a b c d with
  | .ok g' => (g', none)
  | .error e => (g, some e)

/-- C8: a construction-time error in `add_shader_unit` or
`connect_shader_units` is reported at that very call and leaves the group
state unchanged by the failed call, so the group remains well-defined and
usable for further edits. -/
theorem construction_error_leaves_group_unchanged
    (g : ShaderGroupTemplateM) (name a b c d : String)
    (su : ShaderUnitTemplateM) (is_root : Bool) (e e' : TslError)
    (h1 : (add_shader_unit_call g name su is_root).2 = some e)
    (h2 : (connect_shader_units_call g a b c d).2 = some e') :
    (add_shader_unit_call g name su is_root).1 = g ∧
    (connect_shader_units_call g a b c d).1 = g := by
  constructor
  · unfold add_shader_unit_call at h1 ⊢
    cases hr : add_shader_unit g name su is_root with
    | ok g' => rw [hr] at h1; exact Option.noConfusion h1
    | error e0 => rfl
  · unfold connect_shader_units_call at h2 ⊢
    cases hr : connect_shader_units g a b c d with
    | ok g' => rw [hr] at h2; exact Option.noConfusion h2
    | error e0 => rfl

/-- Witness for C8: adding a duplicate unit name and connecting from an
unknown unit both report an error and leave the concrete one-unit group
exactly as it was. -/
theorem construction_error_leaves_group_unchanged_witness :
    (add_shader_unit_call
      (ShaderGroupTemplateM.mk [("a", ⟨[]⟩)] (some "a") [] [] [])
      "a" ⟨[]⟩ false).1 =
      ShaderGroupTemplateM.mk [("a", ⟨[]⟩)] (some "a") [] [] [] ∧
    (connect_shader_units_call
      (ShaderGroupTemplateM.mk [("a", ⟨[]⟩)] (some "a") [] [] [])
      "missing" "o" "a" "i").1 =
      ShaderGroupTemplateM.mk [("a", ⟨[]⟩)] (some "a") [] [] [] :=
  construction_error_leaves_group_unchanged
    (ShaderGroupTemplateM.mk [("a", ⟨[]⟩)] (some "a") [] [] [])
    "a" "missing" "o" "a" "i" ⟨[]⟩ false
    .DuplicateUnitName .UnknownUnit (by decide) (by decide)

/-! ## Group freezing
(`ShaderGroupTemplate::parse_dependencies` /
`ShadingContext::end_shader_group_template`): the dependency pass that
validates the graph and linearizes the member units. -/

/-- Insertion index of a member unit name in the group's member list. -/
def unit_index (g : ShaderGroupTemplateM) (n : String) : Nat :=
  g.units.findIdx (fun p => p.1 == n)

/-- The unit-level dependency edges induced by the connection set:
(source unit index, target unit index) per connection. -/
def group_edges (g : ShaderGroupTemplateM) : List (Nat × Nat) :=
  g.connections.map (fun c => (unit_index g c.src_unit, unit_index g c.tgt_unit))

/-- A unit is free of unresolved dependencies once every edge into it
comes from an already emitted unit. -/
def ready (edges : List (Nat × Nat)) (emitted : List Nat) (u : Nat) : Bool :=
  edges.all (fun e => !(e.2 == u) || emitted.contains e.1)

/-- The next unit to emit: the first (in insertion order) not-yet-emitted
unit that is free of unresolved dependencies. -/
def pick_next (edges : List (Nat × Nat)) (emitted remaining : List Nat) :
    Option Nat :=
  remaining.find? (ready edges emitted)

/-- Modelled from the spec: the topological sort at the heart of
`parse_dependencies` (implementation not among the visible sources).
Kahn-style elimination: repeatedly emit the insertion-earliest ready
unit; report failure (a cycle) when no unit is ready while some
remain. -/
def topo_aux (edges : List (Nat × Nat)) :
    Nat → List Nat → List Nat → Option (List Nat)
  | 0, emitted, remaining => if remaining.isEmpty then some emitted else none
  | fuel + 1, emitted, remaining =>
    match pick_next edges emitted remaining with
    | none => none
    | some u => topo_aux edges fuel (emitted ++ [u]) (remaining.erase u)

/-- Topologically sort the unit indices `0 .. n-1` (insertion order)
along the dependency edges. -/
def topo_sort (edges : List (Nat × Nat)) (n : Nat) : Option (List Nat) :=
  topo_aux edges n [] (List.range n)

/-- An input parameter is bound when it has a template-declared default,
an incoming connection, or an explicit group-level default override. -/
def input_bound (g : ShaderGroupTemplateM) (uname : String)
    (p : ShaderParam) : Bool :=
  p.has_default || has_incoming g uname p.pname ||
    g.input_defaults.contains (uname, p.pname)

/-- Whether every input parameter of every member unit is bound. -/
def all_inputs_bound (g : ShaderGroupTemplateM) : Bool :=
  g.units.all (fun up =>
    up.2.params.all (fun p => p.is_output || input_bound g up.1 p))

/-- Modelled from the spec:
`ShaderGroupTemplate::parse_dependencies`, invoked through
`ShadingContext::end_shader_group_template` (declared in
`shading_context.h`; implementation not among the visible sources).
Per spec 4.3: fails with `NoRootError` when no root is set, with
`UnboundInputError` when some input is neither connected nor defaulted,
and with `CyclicDependencyError` when the connection graph is cyclic;
otherwise yields the topological evaluation order of the member units. -/
def parse_dependencies (g : ShaderGroupTemplateM) :
    Except TslError (List Nat) :=
  match g.root with
  | none => .error .NoRootError
  | some _ =>
    if all_inputs_bound g = true then
      match topo_sort (group_edges g) g.units.length with
      | some order => .ok order
      | none => .error .CyclicDependencyError
    else .error .UnboundInputError

/-- A directed path along the dependency edges, recording the visited
node list; `EdgePath edges a a l` is a directed cycle through `a`. -/
inductive EdgePath (edges : List (Nat × Nat)) : Nat → Nat → List Nat → Prop
  | single {a b : Nat} : (a, b) ∈ edges → EdgePath edges a b [a, b]
  | cons {a b c : Nat} {l : List Nat} : (a, b) ∈ edges →
      EdgePath edges b c l → EdgePath edges a c (a :: l)

/-- The connection graph is acyclic: no unit's output reaches back into
that same unit, directly or transitively. -/
def Acyclic (edges : List (Nat × Nat)) : Prop :=
  ∀ u l, ¬ EdgePath edges u u l

/-- Whether `u` has a dependency predecessor inside the node set `c`. -/
def has_pred_in (edges : List (Nat × Nat)) (c : List Nat) (u : Nat) : Bool :=
  edges.any (fun e => e.2 == u && c.contains e.1)

/-- Shape of a successful `topo_aux` run: the result extends the emitted
prefix by a permutation of the remaining units. -/
theorem topo_aux_some_shape (edges : List (Nat × Nat)) :
    ∀ fuel emitted remaining order,
      topo_aux edges fuel emitted remaining = some order →
      ∃ suffix, order = emitted ++ suffix ∧ List.Perm suffix remaining := by
  intro fuel
  induction fuel with
  | zero =>
      intro emitted remaining order h
      unfold topo_aux at h
      split at h
      · injection h with h
        rename_i hie
        refine ⟨[], by rw [← h, List.append_nil], ?_⟩
        rw [List.isEmpty_iff.mp hie]
      · exact Option.noConfusion h
  | succ fuel ih =>
      intro emitted remaining order h
      unfold topo_aux at h
      cases hp : pick_next edges emitted remaining with
      | none => rw [hp] at h; exact Option.noConfusion h
      | some u =>
          rw [hp] at h
          obtain ⟨suffix, ho, hperm⟩ := ih _ _ _ h
          have hu : u ∈ remaining := List.mem_of_find?_eq_some hp
          refine ⟨u :: suffix, ?_, ?_⟩
          · rw [ho, List.append_assoc]
            rfl
          · exact (hperm.cons u).trans (List.perm_cons_erase hu).symm

/-- `find?` returns the first satisfying element: the list splits at the
found element with every earlier element failing the predicate. -/
theorem find?_first_split {p : Nat → Bool} :
    ∀ {l : List Nat} {u : Nat}, l.find? p = some u →
      ∃ l1 l2, l = l1 ++ u :: l2 ∧ ∀ x ∈ l1, p x = false := by
  intro l
  induction l with
  | nil => intro u h; exact Option.noConfusion h
  | cons a as ih =>
      intro u h
      cases hpa : p a with
      | true =>
          rw [List.find?_cons_of_pos as hpa] at h
          injection h with h
          subst h
          exact ⟨[], as, rfl, fun x hx => absurd hx (List.not_mem_nil x)⟩
      | false =>
          rw [List.find?_cons_of_neg as (by rw [hpa]; exact Bool.false_ne_true)]
            at h
          obtain ⟨l1, l2, hsp, hnr⟩ := ih h
          refine ⟨a :: l1, l2, by rw [hsp]; rfl, ?_⟩
          intro x hx
          rcases List.mem_cons.mp hx with hx' | hx'
          · rw [hx']; exact hpa
          · exact hnr x hx'

/-- Every directed path starts with an edge out of its source. -/
theorem edgePath_head_edge {edges : List (Nat × Nat)} {a b : Nat}
    {l : List Nat} (h : EdgePath edges a b l) : ∃ y, (a, y) ∈ edges := by
  cases h with
  | single hab => exact ⟨_, hab⟩
  | cons hab _ => exact ⟨_, hab⟩

/-- Every directed path ends with an edge into its target, from a node
on the path. -/
theorem edgePath_last_edge {edges : List (Nat × Nat)} {a b : Nat}
    {l : List Nat} (h : EdgePath edges a b l) : ∃ x ∈ l, (x, b) ∈ edges := by
  induction h with
  | single hab => exact ⟨_, by simp, hab⟩
  | cons hab hp ih =>
      obtain ⟨x, hx, hxe⟩ := ih
      exact ⟨x, List.mem_cons_of_mem _ hx, hxe⟩

/-- Every node of a directed path other than its source has a
predecessor on the path. -/
theorem edgePath_pred_mem {edges : List (Nat × Nat)} {a b : Nat}
    {l : List Nat} (h : EdgePath edges a b l) :
    ∀ v ∈ l, v ≠ a → ∃ w ∈ l, (w, v) ∈ edges := by
  induction h with
  | @single a0 b0 hab =>
      intro v hv hva
      rcases List.mem_cons.mp hv with hv' | hv'
      · exact absurd hv' hva
      · rw [List.mem_singleton.mp hv']
        exact ⟨a0, by simp, hab⟩
  | @cons a0 b0 c0 l0 hab hp ih =>
      intro v hv hva
      rcases List.mem_cons.mp hv with hv' | hv'
      · exact absurd hv' hva
      · by_cases hvb : v = b0
        · subst hvb
          exact ⟨a0, by simp, hab⟩
        · obtain ⟨w, hw, hwe⟩ := ih v hv' hvb
          exact ⟨w, List.mem_cons_of_mem _ hw, hwe⟩

/-- Nodes of a directed path are bounded by any bound on the edge
endpoints. -/
theorem edgePath_mem_lt {edges : List (Nat × Nat)} {n a b : Nat}
    {l : List Nat} (hwf : ∀ e ∈ edges, e.1 < n ∧ e.2 < n)
    (h : EdgePath edges a b l) : ∀ v ∈ l, v < n := by
  induction h with
  | @single a0 b0 hab =>
      intro v hv
      rcases List.mem_cons.mp hv with hv' | hv'
      · rw [hv']; exact (hwf _ hab).1
      · rw [List.mem_singleton.mp hv']; exact (hwf _ hab).2
  | @cons a0 b0 c0 l0 hab hp ih =>
      intro v hv
      rcases List.mem_cons.mp hv with hv' | hv'
      · rw [hv']; exact (hwf _ hab).1
      · exact ih v hv'

/-- A directed path visits at least one node. -/
theorem edgePath_ne_nil {edges : List (Nat × Nat)} {a b : Nat}
    {l : List Nat} (h : EdgePath edges a b l) : l ≠ [] := by
  cases h with
  | single _ => exact List.cons_ne_nil _ _
  | cons _ _ => exact List.cons_ne_nil _ _

/-- The node set of a directed cycle through `u` has every node preceded
inside the set: the non-source nodes by their path predecessor, the
source by the path's last edge. -/
theorem cycle_nodes_all_preceded {edges : List (Nat × Nat)} {u : Nat}
    {l : List Nat} (h : EdgePath edges u u l) :
    ∀ v ∈ l, has_pred_in edges l v = true := by
  intro v hv
  have hpred : ∃ w ∈ l, (w, v) ∈ edges := by
    by_cases hvu : v = u
    · obtain ⟨x, hx, hxe⟩ := edgePath_last_edge h
      exact ⟨x, hx, by rw [hvu]; exact hxe⟩
    · exact edgePath_pred_mem h v hv hvu
  obtain ⟨w, hw, hwe⟩ := hpred
  unfold has_pred_in
  rw [List.any_eq_true]
  refine ⟨(w, v), hwe, ?_⟩
  rw [Bool.and_eq_true]
  exact ⟨by simp, List.elem_iff.mpr hw⟩

/-- A choice of predecessor inside a node set: the first edge into `u`
whose source lies in `c`. -/
def pred_pick (edges : List (Nat × Nat)) (c : List Nat) (u : Nat) : Nat :=
  match edges.find? (fun e => e.2 == u && c.contains e.1) with
  | some e => e.1
  | none => 0

/-- When `u` has a predecessor in `c`, `pred_pick` picks an edge into `u`
with its source in `c`. -/
theorem pred_pick_spec {edges : List (Nat × Nat)} {c : List Nat} {u : Nat}
    (hc : has_pred_in edges c u = true) :
    (pred_pick edges c u, u) ∈ edges ∧ pred_pick edges c u ∈ c := by
  unfold has_pred_in at hc
  have hsome : (edges.find? (fun e => e.2 == u && c.contains e.1)).isSome
      = true := by
    rw [List.find?_isSome]
    exact List.any_eq_true.mp hc
  obtain ⟨e, hfe⟩ := Option.isSome_iff_exists.mp hsome
  have hmem := List.mem_of_find?_eq_some hfe
  have hpe := List.find?_some hfe
  rw [Bool.and_eq_true] at hpe
  have h2 : e.2 = u := eq_of_beq hpe.1
  have h1 : e.1 ∈ c := List.elem_iff.mp hpe.2
  unfold pred_pick
  rw [hfe]
  constructor
  · show (e.1, u) ∈ edges
    rw [← h2]
    exact hmem
  · exact h1

/-- All iterates of `pred_pick` from a member of `c` stay inside `c`,
provided every member of `c` has a predecessor in `c`. -/
theorem pred_chain_mem {edges : List (Nat × Nat)} {c : List Nat} {u0 : Nat}
    (hc : ∀ u ∈ c, has_pred_in edges c u = true) (hu0 : u0 ∈ c) :
    ∀ k, (pred_pick edges c)^[k] u0 ∈ c := by
  intro k
  induction k with
  | zero => simpa using hu0
  | succ k ih =>
      rw [Function.iterate_succ_apply']
      exact (pred_pick_spec (hc _ ih)).2

/-- Consecutive iterates of `pred_pick` are joined by dependency
edges. -/
theorem pred_chain_edge {edges : List (Nat × Nat)} {c : List Nat} {u0 : Nat}
    (hc : ∀ u ∈ c, has_pred_in edges c u = true) (hu0 : u0 ∈ c) :
    ∀ k, ((pred_pick edges c)^[k + 1] u0, (pred_pick edges c)^[k] u0) ∈
      edges := by
  intro k
  rw [Function.iterate_succ_apply']
  exact (pred_pick_spec (hc _ (pred_chain_mem hc hu0 k))).1

/-- Any backwards chain of edges yields a directed path from a later
chain point to an earlier one. -/
theorem chain_edgePath {edges : List (Nat × Nat)} (f : Nat → Nat)
    (hstep : ∀ k, (f (k + 1), f k) ∈ edges) :
    ∀ d i, ∃ l, EdgePath edges (f (i + d + 1)) (f i) l := by
  intro d
  induction d with
  | zero => intro i; exact ⟨_, EdgePath.single (hstep i)⟩
  | succ d ih =>
      intro i
      obtain ⟨l, hl⟩ := ih i
      exact ⟨_, EdgePath.cons (hstep (i + d + 1)) hl⟩

/-- A finite nonempty node set in which every node has a predecessor
inside the set contains a directed cycle (pigeonhole on the predecessor
chain). -/
theorem cycle_of_all_preceded {edges : List (Nat × Nat)} {c : List Nat}
    (hcne : c ≠ []) (hc : ∀ u ∈ c, has_pred_in edges c u = true) :
    ∃ u l, EdgePath edges u u l := by
  obtain ⟨u0, hu0⟩ := List.exists_mem_of_ne_nil c hcne
  have hmem : ∀ k, (pred_pick edges c)^[k] u0 ∈ c := pred_chain_mem hc hu0
  have hstep : ∀ k, ((pred_pick edges c)^[k + 1] u0,
      (pred_pick edges c)^[k] u0) ∈ edges := pred_chain_edge hc hu0
  have hcard : c.toFinset.card < (Finset.range (c.length + 1)).card := by
    rw [Finset.card_range]
    exact Nat.lt_succ_of_le (List.toFinset_card_le c)
  obtain ⟨i, _, j, _, hij, hgij⟩ :=
    Finset.exists_ne_map_eq_of_card_lt_of_maps_to hcard
      (fun k _ => List.mem_toFinset.mpr (hmem k))
  rcases Nat.lt_or_ge i j with hlt | hge
  · obtain ⟨l, hl⟩ := chain_edgePath (fun k => (pred_pick edges c)^[k] u0)
      hstep (j - i - 1) i
    have hidx : i + (j - i - 1) + 1 = j := by omega
    rw [hidx] at hl
    rw [← hgij] at hl
    exact ⟨_, l, hl⟩
  · have hlt' : j < i := by omega
    obtain ⟨l, hl⟩ := chain_edgePath (fun k => (pred_pick edges c)^[k] u0)
      hstep (i - j - 1) j
    have hidx : j + (i - j - 1) + 1 = i := by omega
    rw [hidx] at hl
    rw [hgij] at hl
    exact ⟨_, l, hl⟩

/-- In an acyclic graph, every nonempty node set has a node with no
predecessor inside the set. -/
theorem exists_unpreceded_of_acyclic {edges : List (Nat × Nat)}
    {remaining : List Nat} (hacyc : Acyclic edges) (hrem : remaining ≠ []) :
    ∃ u ∈ remaining, has_pred_in edges remaining u = false := by
  by_contra hcon
  push_neg at hcon
  have hall : ∀ u ∈ remaining, has_pred_in edges remaining u = true := by
    intro u hu
    cases hb : has_pred_in edges remaining u with
    | false => exact absurd hb (hcon u hu)
    | true => rfl
  obtain ⟨u, l, hul⟩ := cycle_of_all_preceded hrem hall
  exact hacyc u l hul

/-- A node with no predecessor among the remaining units is ready: all
its dependency sources are already emitted. -/
theorem ready_of_unpreceded {edges : List (Nat × Nat)} {n : Nat}
    {emitted remaining : List Nat} {u : Nat}
    (hwf : ∀ e ∈ edges, e.1 < n)
    (hcover : ∀ v, v < n → v ∈ emitted ∨ v ∈ remaining)
    (hnp : has_pred_in edges remaining u = false) :
    ready edges emitted u = true := by
  unfold ready
  rw [List.all_eq_true]
  intro e he
  rw [Bool.or_eq_true]
  by_cases h2 : e.2 = u
  · right
    have h1nr : e.1 ∉ remaining := by
      intro hmem
      have hany : edges.any
          (fun e' => e'.2 == u && remaining.contains e'.1) = true :=
        List.any_eq_true.mpr ⟨e, he, by
          rw [Bool.and_eq_true]
          exact ⟨by rw [h2]; exact beq_self_eq_true u, List.elem_iff.mpr hmem⟩⟩
      unfold has_pred_in at hnp
      rw [hnp] at hany
      exact Bool.noConfusion hany
    rcases hcover e.1 (hwf e he) with hemit | hrem'
    · exact List.elem_iff.mpr hemit
    · exact absurd hrem' h1nr
  · left
    rw [beq_eq_false_iff_ne.mpr h2]
    rfl

/-- Kahn elimination succeeds on an acyclic graph: with fuel matching
the remaining units and the emitted/remaining lists covering all units,
`topo_aux` returns a result. -/
theorem topo_aux_isSome {edges : List (Nat × Nat)} {n : Nat}
    (hwf : ∀ e ∈ edges, e.1 < n) (hacyc : Acyclic edges) :
    ∀ fuel remaining emitted, fuel = remaining.length →
      (∀ v, v < n → v ∈ emitted ∨ v ∈ remaining) →
      (topo_aux edges fuel emitted remaining).isSome = true := by
  intro fuel
  induction fuel with
  | zero =>
      intro remaining emitted hlen hcover
      have hnil : remaining = [] := List.eq_nil_of_length_eq_zero hlen.symm
      subst hnil
      rfl
  | succ fuel ih =>
      intro remaining emitted hlen hcover
      have hrem : remaining ≠ [] := by
        intro hcontra
        rw [hcontra] at hlen
        exact Nat.noConfusion hlen
      obtain ⟨w, hwmem, hwnp⟩ := exists_unpreceded_of_acyclic hacyc hrem
      have hready : ready edges emitted w = true :=
        ready_of_unpreceded hwf hcover hwnp
      have hpick : (pick_next edges emitted remaining).isSome = true := by
        unfold pick_next
        rw [List.find?_isSome]
        exact ⟨w, hwmem, hready⟩
      obtain ⟨u, hu⟩ := Option.isSome_iff_exists.mp hpick
      have humem : u ∈ remaining := List.mem_of_find?_eq_some hu
      have hlen' : fuel = (remaining.erase u).length := by
        rw [List.length_erase_of_mem humem]
        omega
      have hcover' : ∀ v, v < n → v ∈ emitted ++ [u] ∨
          v ∈ remaining.erase u := by
        intro v hv
        rcases hcover v hv with hem | hrm
        · exact Or.inl (List.mem_append_left _ hem)
        · by_cases hvu : v = u
          · exact Or.inl (List.mem_append_right _ (by rw [hvu]; simp))
          · exact Or.inr ((List.mem_erase_of_ne hvu).mpr hrm)
      have hrec := ih (remaining.erase u) (emitted ++ [u]) hlen' hcover'
      unfold topo_aux
      rw [hu]
      exact hrec

/-- The partial order invariant of the emitted list: the source of every
edge whose target is emitted appears earlier in the emitted list. -/
def emitted_topo (edges : List (Nat × Nat)) (order : List Nat) : Prop :=
  ∀ e ∈ edges, e.2 ∈ order → List.Sublist [e.1, e.2] order

/-- `topo_aux` preserves the topological-order invariant from the
emitted prefix to the final result. -/
theorem topo_aux_topo (edges : List (Nat × Nat)) :
    ∀ fuel emitted remaining order,
      topo_aux edges fuel emitted remaining = some order →
      emitted_topo edges emitted → emitted_topo edges order := by
  intro fuel
  induction fuel with
  | zero =>
      intro emitted remaining order h hP
      unfold topo_aux at h
      split at h
      · injection h with h
        rw [← h]
        exact hP
      · exact Option.noConfusion h
  | succ fuel ih =>
      intro emitted remaining order h hP
      unfold topo_aux at h
      cases hp : pick_next edges emitted remaining with
      | none => rw [hp] at h; exact Option.noConfusion h
      | some u =>
          rw [hp] at h
          have hready : ready edges emitted u = true := List.find?_some hp
          refine ih _ _ _ h ?_
          intro e he hmem
          rcases List.mem_append.mp hmem with h2 | h2
          · exact (hP e he h2).trans (List.sublist_append_left emitted [u])
          · have h2u : e.2 = u := by simpa using h2
            have h1em : e.1 ∈ emitted := by
              unfold ready at hready
              rw [List.all_eq_true] at hready
              have hor := hready e he
              rw [Bool.or_eq_true] at hor
              rcases hor with hx | hx
              · rw [h2u] at hx
                simp at hx
              · exact List.elem_iff.mp hx
            have hsub : List.Sublist ([e.1] ++ [e.2]) (emitted ++ [u]) := by
              refine List.Sublist.append (List.singleton_sublist.mpr h1em) ?_
              rw [h2u]
            exact hsub

/-- The tie-break rule of `topo_aux`: whenever the remaining units are
listed in ascending insertion order, a unit emitted at some step is
(insertion-)earlier than any unit that was already ready at that step
but emitted later. -/
theorem topo_aux_tiebreak (edges : List (Nat × Nat)) :
    ∀ fuel emitted remaining order,
      topo_aux edges fuel emitted remaining = some order →
      List.Pairwise (· < ·) remaining →
      ∀ l1 u l2, order = l1 ++ u :: l2 → emitted.length ≤ l1.length →
        ∀ v ∈ l2, ready edges l1 v = true → u < v := by
  intro fuel
  induction fuel with
  | zero =>
      intro emitted remaining order h hpw l1 u l2 horder hlen v hv hready
      unfold topo_aux at h
      split at h
      · injection h with h
        have hcontra := congrArg List.length horder
        rw [← h] at hcontra
        simp at hcontra
        omega
      · exact Option.noConfusion h
  | succ fuel ih =>
      intro emitted remaining order h hpw l1 u l2 horder hlen v hv hready
      unfold topo_aux at h
      cases hp : pick_next edges emitted remaining with
      | none => rw [hp] at h; exact Option.noConfusion h
      | some u0 =>
      rw [hp] at h
      obtain ⟨suffix, hsh, hperm⟩ :=
        topo_aux_some_shape edges fuel (emitted ++ [u0])
          (remaining.erase u0) order h
      have hu0mem : u0 ∈ remaining := List.mem_of_find?_eq_some hp
      have hpw' : List.Pairwise (· < ·) (remaining.erase u0) :=
        hpw.sublist (List.erase_sublist u0 remaining)
      rcases Nat.lt_or_ge emitted.length l1.length with hlt | hge
      · refine ih (emitted ++ [u0]) (remaining.erase u0) order h hpw'
          l1 u l2 horder ?_ v hv hready
        rw [List.length_append]
        simpa using Nat.succ_le_of_lt hlt
      · have horder2 : emitted ++ (u0 :: suffix) = l1 ++ (u :: l2) := by
          rw [← horder, hsh, List.append_assoc]
          rfl
        obtain ⟨he1, he2⟩ :=
          List.append_inj horder2 (Nat.le_antisymm hlen hge)
        injection he2 with heu hesuf
        have hnd : remaining.Nodup := hpw.imp fun hx => Nat.ne_of_lt hx
        have hvrem : v ∈ remaining.erase u0 := by
          refine hperm.mem_iff.mp ?_
          rw [hesuf]
          exact hv
        obtain ⟨hvne, hvrem'⟩ := hnd.mem_erase_iff.mp hvrem
        obtain ⟨r1, r2, hsplit, hnotready⟩ := find?_first_split hp
        have hvr2 : v ∈ r2 := by
          rw [hsplit] at hvrem'
          rcases List.mem_append.mp hvrem' with h1 | h1
          · have hfalse := hnotready v h1
            rw [← he1] at hready
            rw [hready] at hfalse
            exact Bool.noConfusion hfalse
          · rcases List.mem_cons.mp h1 with h2 | h2
            · exact absurd h2 hvne
            · exact h2
        rw [hsplit] at hpw
        have hp1 := (List.pairwise_append.mp hpw).2.1
        have hp2 := (List.pairwise_cons.mp hp1).1 v hvr2
        rw [← heu]
        exact hp2

/-- If a node set whose members are all preceded within the set survives
among the remaining units, Kahn elimination can never finish: `topo_aux`
returns `none`. -/
theorem topo_aux_none_of_preceded (edges : List (Nat × Nat)) (c : List Nat)
    (hcne : c ≠ []) (hc : ∀ u ∈ c, has_pred_in edges c u = true) :
    ∀ fuel emitted remaining, (∀ x ∈ c, x ∈ remaining) →
      (∀ x ∈ remaining, x ∉ emitted) →
      remaining.Nodup →
      topo_aux edges fuel emitted remaining = none := by
  intro fuel
  induction fuel with
  | zero =>
      intro emitted remaining hsub hdisj hnd
      unfold topo_aux
      rw [if_neg ?_]
      intro hie
      obtain ⟨x, hx⟩ := List.exists_mem_of_ne_nil c hcne
      have hxrem := hsub x hx
      rw [List.isEmpty_iff.mp hie] at hxrem
      exact absurd hxrem (List.not_mem_nil x)
  | succ fuel ih =>
      intro emitted remaining hsub hdisj hnd
      unfold topo_aux
      cases hp : pick_next edges emitted remaining with
      | none => rfl
      | some u =>
          have humem : u ∈ remaining := List.mem_of_find?_eq_some hp
          have hready : ready edges emitted u = true := List.find?_some hp
          have hunotc : u ∉ c := by
            intro huc
            obtain ⟨e, he, hpe⟩ := List.any_eq_true.mp (hc u huc)
            rw [Bool.and_eq_true] at hpe
            have he2 : e.2 = u := eq_of_beq hpe.1
            have he1c : e.1 ∈ c := List.elem_iff.mp hpe.2
            have he1rem : e.1 ∈ remaining := hsub _ he1c
            unfold ready at hready
            rw [List.all_eq_true] at hready
            have hor := hready e he
            rw [Bool.or_eq_true] at hor
            rcases hor with hx | hx
            · rw [he2] at hx
              simp at hx
            · exact hdisj _ he1rem (List.elem_iff.mp hx)
          have hsub' : ∀ x ∈ c, x ∈ remaining.erase u := by
            intro x hx
            exact hnd.mem_erase_iff.mpr
              ⟨fun heq => hunotc (heq ▸ hx), hsub x hx⟩
          have hdisj' : ∀ x ∈ remaining.erase u, x ∉ emitted ++ [u] := by
            intro x hx hmem
            obtain ⟨hxne, hxrem⟩ := hnd.mem_erase_iff.mp hx
            rcases List.mem_append.mp hmem with h1 | h1
            · exact hdisj x hxrem h1
            · exact hxne (by simpa using h1)
          have hnd' : (remaining.erase u).Nodup :=
            hnd.sublist (List.erase_sublist u remaining)
          exact ih (emitted ++ [u]) (remaining.erase u) hsub' hdisj' hnd'

/-- When every connection's endpoints are member units (as
`connect_shader_units` guarantees), the induced edges stay within the
unit index range. -/
theorem group_edges_wf (g : ShaderGroupTemplateM)
    (hconn : ∀ c ∈ g.connections, (find_unit g c.src_unit).isSome = true ∧
      (find_unit g c.tgt_unit).isSome = true) :
    ∀ e ∈ group_edges g, e.1 < g.units.length ∧ e.2 < g.units.length := by
  intro e he
  unfold group_edges at he
  rw [List.mem_map] at he
  obtain ⟨c, hc, hec⟩ := he
  rw [← hec]
  have h1 := (hconn c hc).1
  have h2 := (hconn c hc).2
  unfold find_unit at h1 h2
  rw [Option.isSome_map', List.find?_isSome] at h1 h2
  exact ⟨List.findIdx_lt_length_of_exists h1,
    List.findIdx_lt_length_of_exists h2⟩

/-- C1: for a group with a root, all inputs bound and an acyclic
connection graph (with all connection endpoints members), freezing
succeeds with an evaluation order that: lists every member unit exactly
once, respects every dependency edge (source before target), breaks ties
by insertion order (a unit emitted while another was also ready is the
insertion-earlier one), and is identical across repeated freezes of an
identical graph. -/
theorem parse_dependencies_acyclic_deterministic (g : ShaderGroupTemplateM)
    (r : String)
    (hroot : g.root = some r)
    (hbound : all_inputs_bound g = true)
    (hacyc : Acyclic (group_edges g))
    (hconn : ∀ c ∈ g.connections, (find_unit g c.src_unit).isSome = true ∧
      (find_unit g c.tgt_unit).isSome = true) :
    ∃ order, parse_dependencies g = .ok order ∧
      List.Perm order (List.range g.units.length) ∧
      (∀ e ∈ group_edges g, List.Sublist [e.1, e.2] order) ∧
      (∀ l1 u l2, order = l1 ++ u :: l2 → ∀ v ∈ l2,
        ready (group_edges g) l1 v = true → u < v) ∧
      (∀ order2, parse_dependencies g = .ok order2 → order2 = order) := by
  have hwf := group_edges_wf g hconn
  have hsome := topo_aux_isSome (fun e he => (hwf e he).1) hacyc
    g.units.length (List.range g.units.length) []
    (List.length_range _).symm
    (fun v hv => Or.inr (List.mem_range.mpr hv))
  obtain ⟨order, horder⟩ := Option.isSome_iff_exists.mp hsome
  have htopo : topo_sort (group_edges g) g.units.length = some order := horder
  have hparse : parse_dependencies g = .ok order := by
    unfold parse_dependencies
    simp only [hroot]
    rw [if_pos hbound]
    simp only [htopo]
  obtain ⟨suffix, hsh, hperm⟩ := topo_aux_some_shape _ _ _ _ _ htopo
  have hordperm : List.Perm order (List.range g.units.length) := by
    rw [hsh]
    simpa using hperm
  refine ⟨order, hparse, hordperm, ?_, ?_, ?_⟩
  · have htp := topo_aux_topo (group_edges g) g.units.length []
      (List.range g.units.length) order htopo
      (fun e _ hmem => absurd hmem (List.not_mem_nil _))
    intro e he
    exact htp e he (hordperm.mem_iff.mpr (List.mem_range.mpr (hwf e he).2))
  · intro l1 u l2 horder v hv hready
    exact topo_aux_tiebreak (group_edges g) g.units.length []
      (List.range g.units.length) order htopo
      (List.pairwise_lt_range _) l1 u l2 horder (Nat.zero_le _) v hv hready
  · intro order2 h2
    rw [hparse] at h2
    injection h2 with h2
    exact h2.symm

/-- The two-edge-free graph `a → b` is acyclic. -/
theorem acyclic_zero_one : Acyclic [((0 : Nat), (1 : Nat))] := by
  intro u l hp
  obtain ⟨y, hy⟩ := edgePath_head_edge hp
  obtain ⟨x, _, hx⟩ := edgePath_last_edge hp
  simp at hy hx
  omega

/-- A concrete two-unit group `a.o → b.i` with root `b`, all inputs
connected, used to evaluate the freeze pass. -/
def ex_acyclic_group : ShaderGroupTemplateM :=
  ⟨[("a", ⟨[⟨"o", true, "color", false⟩]⟩),
    ("b", ⟨[⟨"i", false, "color", false⟩, ⟨"res", true, "closure", false⟩]⟩)],
   some "b", [⟨"a", "o", "b", "i"⟩], [], []⟩

/-- Witness for C1 on the concrete group `ex_acyclic_group`. -/
theorem parse_dependencies_acyclic_deterministic_witness :
    ∃ order, parse_dependencies ex_acyclic_group = .ok order ∧
      List.Perm order (List.range ex_acyclic_group.units.length) ∧
      (∀ e ∈ group_edges ex_acyclic_group, List.Sublist [e.1, e.2] order) ∧
      (∀ l1 u l2, order = l1 ++ u :: l2 → ∀ v ∈ l2,
        ready (group_edges ex_acyclic_group) l1 v = true → u < v) ∧
      (∀ order2, parse_dependencies ex_acyclic_group = .ok order2 →
        order2 = order) :=
  parse_dependencies_acyclic_deterministic ex_acyclic_group "b" rfl
    (by decide)
    (by rw [show group_edges ex_acyclic_group = [((0 : Nat), (1 : Nat))]
          from rfl]
        exact acyclic_zero_one)
    (by decide)

/-- C2: for a group whose connection graph has a directed cycle (a
unit's output reaching back into the same unit, directly or
transitively), freezing terminates and fails with a `GraphError`
(`CyclicDependencyError` when the root and input checks pass); it never
returns a successful order. -/
theorem parse_dependencies_cycle_fails (g : ShaderGroupTemplateM)
    (u : Nat) (l : List Nat)
    (hcyc : EdgePath (group_edges g) u u l)
    (hconn : ∀ c ∈ g.connections, (find_unit g c.src_unit).isSome = true ∧
      (find_unit g c.tgt_unit).isSome = true) :
    ∃ e, parse_dependencies g = .error e ∧ TslError.isGraphError e = true ∧
      (g.root ≠ none → all_inputs_bound g = true →
        e = .CyclicDependencyError) ∧
      ∀ o, parse_dependencies g ≠ .ok o := by
  have hwf := group_edges_wf g hconn
  cases hroot : g.root with
  | none =>
      refine ⟨.NoRootError, ?_, rfl, ?_, ?_⟩
      · unfold parse_dependencies
        simp only [hroot]
      · intro hcontra
        exact absurd rfl hcontra
      · intro o ho
        unfold parse_dependencies at ho
        simp only [hroot] at ho
        exact Except.noConfusion ho
  | some r =>
      by_cases hbound : all_inputs_bound g = true
      · have hnone : topo_sort (group_edges g) g.units.length = none := by
          unfold topo_sort
          refine topo_aux_none_of_preceded (group_edges g) l
            (edgePath_ne_nil hcyc) (cycle_nodes_all_preceded hcyc)
            g.units.length [] (List.range g.units.length) ?_ ?_
            (List.nodup_range _)
          · intro x hx
            exact List.mem_range.mpr (edgePath_mem_lt hwf hcyc x hx)
          · intro x _ hmem
            exact absurd hmem (List.not_mem_nil x)
        refine ⟨.CyclicDependencyError, ?_, rfl, fun _ _ => rfl, ?_⟩
        · unfold parse_dependencies
          simp only [hroot]
          rw [if_pos hbound]
          simp only [hnone]
        · intro o ho
          unfold parse_dependencies at ho
          simp only [hroot] at ho
          rw [if_pos hbound] at ho
          simp only [hnone] at ho
          exact Except.noConfusion ho
      · refine ⟨.UnboundInputError, ?_, rfl, ?_, ?_⟩
        · unfold parse_dependencies
          simp only [hroot]
          rw [if_neg hbound]
        · intro _ hcontra
          exact absurd hcontra hbound
        · intro o ho
          unfold parse_dependencies at ho
          simp only [hroot] at ho
          rw [if_neg hbound] at ho
          exact Except.noConfusion ho

/-- A concrete two-unit group with the mutual connections
`a.o → b.i` and `b.o → a.i`: a directed cycle. -/
def ex_cyclic_group : ShaderGroupTemplateM :=
  ⟨[("a", ⟨[⟨"i", false, "color", false⟩, ⟨"o", true, "color", false⟩]⟩),
    ("b", ⟨[⟨"i", false, "color", false⟩, ⟨"o", true, "color", false⟩]⟩)],
   some "a",
   [⟨"a", "o", "b", "i"⟩, ⟨"b", "o", "a", "i"⟩], [], []⟩

/-- Witness for C2 on the concrete cyclic group `ex_cyclic_group`. -/
theorem parse_dependencies_cycle_fails_witness :
    ∃ e, parse_dependencies ex_cyclic_group = .error e ∧
      TslError.isGraphError e = true ∧
      (ex_cyclic_group.root ≠ none →
        all_inputs_bound ex_cyclic_group = true →
        e = .CyclicDependencyError) ∧
      ∀ o, parse_dependencies ex_cyclic_group ≠ .ok o :=
  parse_dependencies_cycle_fails ex_cyclic_group 0 [0, 1, 0]
    (EdgePath.cons (by decide) (EdgePath.single (by decide)))
    (by decide)

/-! ## Shader unit templates and instance resolution
(`ShadingContext::compile_shader_unit_template`,
`ShaderUnitTemplate::make_shader_instance`,
`ShadingContext::resolve_shader_instance`,
`ShaderInstance::get_function`) -/

/-- Modelled from the spec: a compiled shader unit template as instance
resolution sees it: its name and its compiled code handle, absent when
compilation failed (`compile_shader_unit_template` returns failure and
the template stays a named, non-instantiable placeholder). -/
structure ShaderUnitTemplateC where
  tname : String
  code : Option Nat
deriving DecidableEq, Repr

/-- A shader instance: the non-owning reference to its template's
compiled code plus the resolved entry point, present only if resolution
succeeded. -/
structure ShaderInstanceM where
  tpl_code : Option Nat
  resolved_function : Option Nat
deriving DecidableEq, Repr

/-- `ShaderUnitTemplate::make_shader_instance`: always constructible,
initially unresolved. -/
def make_shader_instance (t : ShaderUnitTemplateC) : ShaderInstanceM :=
  ⟨t.code, none⟩

/-- Modelled from the spec: `ShadingContext::resolve_shader_instance`
(declared in `shading_context.h`; implementation not among the visible
sources).  Per spec 4.4/7: binds the entry point to the template's
compiled code; resolving an already-resolved instance is a no-op
returning the previous result; an instance of a template that failed to
compile fails with a resolution error and stays unresolved. -/
def resolve_shader_instance (si : ShaderInstanceM) :
    ShaderInstanceM × Except TslError Nat :=
  match si.resolved_function with
  | some f => (si, .ok f)
  | none =>
    match si.tpl_code with
    | some addr => ({ si with resolved_function := some addr }, .ok addr)
    | none => (si, .error .ResolutionError)

/-- `ShaderInstance::get_function`: the raw entry point address, the
null address 0 while unresolved. -/
def get_function (si : ShaderInstanceM) : Nat :=
  si.resolved_function.getD 0

/-- C5: resolving an already successfully resolved instance is a no-op:
it returns the same successful result and leaves the instance (hence its
entry-point address) unchanged. -/
theorem resolve_shader_instance_idempotent (si si1 : ShaderInstanceM)
    (f : Nat) (h : resolve_shader_instance si = (si1, .ok f)) :
    resolve_shader_instance si1 = (si1, .ok f) ∧ get_function si1 = f := by
  unfold resolve_shader_instance at h
  cases hres : si.resolved_function with
  | some f0 =>
      rw [hres] at h
      injection h with h1 h2
      injection h2 with h2
      subst h1
      subst h2
      constructor
      · unfold resolve_shader_instance
        rw [hres]
      · unfold get_function
        rw [hres]
        rfl
  | none =>
      rw [hres] at h
      cases hcode : si.tpl_code with
      | some addr =>
          rw [hcode] at h
          injection h with h1 h2
          injection h2 with h2
          subst h2
          subst h1
          exact ⟨rfl, rfl⟩
      | none =>
          rw [hcode] at h
          injection h with h1 h2
          exact Except.noConfusion h2

/-- Witness for C5: a concrete freshly resolved instance resolves to the
same state and result again, with the entry address unchanged. -/
theorem resolve_shader_instance_idempotent_witness :
    resolve_shader_instance ⟨some 7, some 7⟩ = (⟨some 7, some 7⟩, .ok 7) ∧
    get_function ⟨some 7, some 7⟩ = 7 :=
  resolve_shader_instance_idempotent ⟨some 7, none⟩ ⟨some 7, some 7⟩ 7 rfl

/-- C6: an instance made from a template whose compilation failed (no
compiled code handle) never yields a usable entry point: resolving it
reports a resolution error and leaves it unresolved, and its entry-point
address stays the null address 0. -/
theorem resolve_failed_template_never_callable (t : ShaderUnitTemplateC)
    (h : t.code = none) :
    resolve_shader_instance (make_shader_instance t) =
      (make_shader_instance t, .error .ResolutionError) ∧
    (make_shader_instance t).resolved_function = none ∧
    get_function (make_shader_instance t) = 0 := by
  refine ⟨?_, rfl, rfl⟩
  unfold resolve_shader_instance make_shader_instance
  simp only [h]

/-- Witness for C6: the concrete failed template named `bad`. -/
theorem resolve_failed_template_never_callable_witness :
    resolve_shader_instance (make_shader_instance ⟨"bad", none⟩) =
      (make_shader_instance ⟨"bad", none⟩, .error .ResolutionError) ∧
    (make_shader_instance ⟨"bad", none⟩).resolved_function = none ∧
    get_function (make_shader_instance ⟨"bad", none⟩) = 0 :=
  resolve_failed_template_never_callable ⟨"bad", none⟩ rfl

/-! ## The sample host's bump allocator (`rt_tsl.cpp`)
`ShadingSystemInterfaceSimple::allocate` and `reset_memory_allocator`,
translated from the source: a thread-local buffer `buf` of
`BUF_MEM_SIZE` bytes and the running offset `buf_index`. -/

/-- `BUF_MEM_SIZE` in `rt_tsl.cpp`. -/
def BUF_MEM_SIZE : Nat := 16866

/-- `ShadingSystemInterfaceSimple::allocate`: asserts
`buf_index + size < BUF_MEM_SIZE` (modelled as `none` on assertion
failure), returns `buf + buf_index` (modelled as the byte offset
`buf_index` into the buffer) and advances `buf_index` by `size`. -/
def allocate (buf_index : Nat) (size : Nat) : Option (Nat × Nat) :=
  if buf_index + size < BUF_MEM_SIZE then some (buf_index, buf_index + size)
  else none

/-- `reset_memory_allocator`: sets `buf_index` back to 0. -/
def reset_memory_allocator : Nat := 0

/-- Run a sequence of `allocate` calls on one thread, collecting the
returned offsets and the final `buf_index`; `none` if any call's
assertion fails. -/
def alloc_run : List Nat → Nat → Option (List Nat × Nat)
  | [], st => some ([], st)
  | s :: rest, st =>
    match allocate st s with
    | none => none
    | some (off, st') =>
      match alloc_run rest st' with
      | none => none
      | some (offs, fin) => some (off :: offs, fin)

/-- The offsets a bump allocator hands out: each call returns the start
offset plus the sum of the previously allocated sizes. -/
def prefix_offsets : List Nat → Nat → List Nat
  | [], _ => []
  | s :: rest, st => st :: prefix_offsets rest (st + s)

/-- While the cumulative allocation stays below the buffer size, every
assertion holds and the run returns exactly the bump offsets, ending at
the total size. -/
theorem alloc_run_eq (sizes : List Nat) : ∀ st,
    st + sizes.sum < BUF_MEM_SIZE →
    alloc_run sizes st = some (prefix_offsets sizes st, st + sizes.sum) := by
  induction sizes with
  | nil =>
      intro st h
      simp [alloc_run, prefix_offsets]
  | cons s rest ih =>
      intro st h
      rw [List.sum_cons] at h
      have hs : st + s < BUF_MEM_SIZE := by omega
      have h' : st + s + rest.sum < BUF_MEM_SIZE := by omega
      simp only [alloc_run, allocate, if_pos hs, ih (st + s) h',
        prefix_offsets, List.sum_cons]
      rw [Nat.add_assoc]

/-- Every offset handed out from start state `st` is at least `st`. -/
theorem prefix_offsets_ge (sizes : List Nat) : ∀ st x,
    x ∈ prefix_offsets sizes st → st ≤ x := by
  induction sizes with
  | nil => intro st x hx; exact absurd hx (List.not_mem_nil x)
  | cons s rest ih =>
      intro st x hx
      rcases List.mem_cons.mp hx with hx' | hx'
      · rw [hx']
      · exact Nat.le_trans (Nat.le_add_right st s) (ih (st + s) x hx')

/-- The allocated regions, as (offset, size) pairs, are pairwise
disjoint: each region ends no later than the next begins. -/
theorem prefix_offsets_disjoint (sizes : List Nat) : ∀ st,
    List.Pairwise (fun a b => a.1 + a.2 ≤ b.1)
      ((prefix_offsets sizes st).zip sizes) := by
  induction sizes with
  | nil => intro st; exact List.Pairwise.nil
  | cons s rest ih =>
      intro st
      simp only [prefix_offsets, List.zip_cons_cons]
      refine List.Pairwise.cons ?_ (ih (st + s))
      intro p hp
      exact prefix_offsets_ge rest (st + s) p.1 (List.of_mem_zip hp).1

/-- All allocated regions lie inside the buffer. -/
theorem prefix_offsets_in_buffer (sizes : List Nat) : ∀ st,
    st + sizes.sum < BUF_MEM_SIZE →
    ∀ p ∈ (prefix_offsets sizes st).zip sizes, p.1 + p.2 < BUF_MEM_SIZE := by
  induction sizes with
  | nil => intro st _ p hp; exact absurd hp (List.not_mem_nil p)
  | cons s rest ih =>
      intro st h p hp
      rw [List.sum_cons] at h
      simp only [prefix_offsets, List.zip_cons_cons] at hp
      rcases List.mem_cons.mp hp with hp' | hp'
      · rw [hp']
        show st + s < BUF_MEM_SIZE
        omega
      · exact ih (st + s) (by omega) p hp'

/-- The `i`-th returned offset is the sum of the first `i` sizes. -/
theorem prefix_offsets_get? (sizes : List Nat) : ∀ st i, i < sizes.length →
    (prefix_offsets sizes st).get? i = some (st + (sizes.take i).sum) := by
  induction sizes with
  | nil => intro st i h; exact absurd h (Nat.not_lt_zero i)
  | cons s rest ih =>
      intro st i h
      cases i with
      | zero => simp [prefix_offsets]
      | succ i =>
          simp only [prefix_offsets, List.get?_cons_succ]
          rw [ih (st + s) i (by simpa using h)]
          congr 1
          rw [List.take_succ_cons, List.sum_cons]
          omega

/-- C9: the sample host allocator is a bump allocator over the fixed
thread-local buffer: for a sequence of `allocate` calls on one thread
whose cumulative size stays strictly below `BUF_MEM_SIZE`, every call's
assertion `buf_index + size < BUF_MEM_SIZE` holds, the `i`-th call
returns `buf` plus the sum of all previously allocated sizes, the
returned regions lie inside the buffer and are pairwise disjoint, and
`reset_memory_allocator` restores the cumulative offset to 0. -/
theorem bump_allocator_correct (sizes : List Nat)
    (h : sizes.sum < BUF_MEM_SIZE) :
    alloc_run sizes 0 = some (prefix_offsets sizes 0, sizes.sum) ∧
    (∀ i, i < sizes.length →
      (prefix_offsets sizes 0).get? i = some ((sizes.take i).sum)) ∧
    List.Pairwise (fun a b => a.1 + a.2 ≤ b.1)
      ((prefix_offsets sizes 0).zip sizes) ∧
    (∀ p ∈ (prefix_offsets sizes 0).zip sizes, p.1 + p.2 < BUF_MEM_SIZE) ∧
    reset_memory_allocator = 0 := by
  refine ⟨?_, ?_, prefix_offsets_disjoint sizes 0, ?_, rfl⟩
  · have hrun := alloc_run_eq sizes 0 (by simpa using h)
    simpa using hrun
  · intro i hi
    have hget := prefix_offsets_get? sizes 0 i hi
    simpa using hget
  · intro p hp
    exact prefix_offsets_in_buffer sizes 0 (by simpa using h) p hp

/-- Witness for C9 at the concrete allocation sequence 100, 200, 50
bytes. -/
theorem bump_allocator_correct_witness :
    alloc_run [100, 200, 50] 0 =
      some (prefix_offsets [100, 200, 50] 0, [100, 200, 50].sum) ∧
    (∀ i, i < [100, 200, 50].length →
      (prefix_offsets [100, 200, 50] 0).get? i =
        some (([100, 200, 50].take i).sum)) ∧
    List.Pairwise (fun a b => a.1 + a.2 ≤ b.1)
      ((prefix_offsets [100, 200, 50] 0).zip [100, 200, 50]) ∧
    (∀ p ∈ (prefix_offsets [100, 200, 50] 0).zip [100, 200, 50],
      p.1 + p.2 < BUF_MEM_SIZE) ∧
    reset_memory_allocator = 0 :=
  bump_allocator_correct [100, 200, 50] (by decide)

/-! ## The sample host's lambert material and `get_bxdf` (`rt_tsl.cpp`)
The numeric vector components are carried opaquely (the sample only
copies them between records; it never computes on them). -/

/-- A three-component vector value (`float3` / the renderer's `Vec`),
carried opaquely. -/
structure Float3 where
  x : Int
  y : Int
  z : Int
deriving DecidableEq, Repr

/-- The `TslGlobal` record of `rt_tsl.cpp`: `base_color`, `center`,
`flip_normal`. -/
structure TslGlobal where
  base_color : Float3
  center : Float3
  flip_normal : Bool
deriving DecidableEq, Repr

/-- The `ClosureTypeLambert` record of `rt_tsl.cpp`: `base_color`,
`sphere_center`, `flip_normal`. -/
structure ClosureTypeLambert where
  base_color : Float3
  sphere_center : Float3
  flip_normal : Bool
deriving DecidableEq, Repr

/-- A closure tree node as `get_bxdf` reads it: the closure id and the
lambert parameter record behind `m_params`. -/
structure ClosureTreeNodeLambert where
  m_id : Nat
  m_params : ClosureTypeLambert
deriving DecidableEq, Repr

/-- The field list `ClosureTypeLambert::RegisterClosure` submits:
`(float3 base_color, float3 sphere_center, bool flip_normal)`. -/
def lambert_closure_fields : List ClosureVar :=
  [⟨"base_color", "float3"⟩, ⟨"sphere_center", "float3"⟩,
   ⟨"flip_normal", "bool"⟩]

/-- Modelled from the spec: the resolved entry point of the single-unit
`lambert` shader of `initialize_lambert_material` in `rt_tsl.cpp` (the
textual compiler that produces it is an external collaborator, spec
sections 1 and 6).  The shader reads the three global values and
constructs one `lambert` closure from them unchanged:
`bxdf = make_closure<lambert>(base_color, center, flip_normal)`. -/
def lambert_shader_entry (lambert_id : Nat) (g : TslGlobal) :
    ClosureTreeNodeLambert :=
  ⟨lambert_id, ⟨g.base_color, g.center, g.flip_normal⟩⟩

/-- C7: end-to-end — registering `lambert` in a fresh registry yields
id 1, and invoking the resolved lambert shader with
`base_color = (1,0,0)`, `center = (0,0,0)`, `flip_normal = false`
produces a closure whose id equals the registration id and whose three
fields equal those inputs unchanged. -/
theorem lambert_end_to_end :
    register_closure_type ClosureRegistry.empty "lambert"
      lambert_closure_fields 28 =
      .ok (⟨[⟨"lambert", lambert_closure_fields, 28, 1⟩], 2⟩, 1) ∧
    (lambert_shader_entry 1 ⟨⟨1, 0, 0⟩, ⟨0, 0, 0⟩, false⟩).m_id = 1 ∧
    (lambert_shader_entry 1
      ⟨⟨1, 0, 0⟩, ⟨0, 0, 0⟩, false⟩).m_params.base_color = ⟨1, 0, 0⟩ ∧
    (lambert_shader_entry 1
      ⟨⟨1, 0, 0⟩, ⟨0, 0, 0⟩, false⟩).m_params.sphere_center = ⟨0, 0, 0⟩ ∧
    (lambert_shader_entry 1
      ⟨⟨1, 0, 0⟩, ⟨0, 0, 0⟩, false⟩).m_params.flip_normal = false :=
  ⟨rfl, rfl, rfl, rfl, rfl⟩

/-- The renderer's sphere as `get_bxdf` consumes it: position `p`,
color `c`, flip-normal flag `fn` (the material index is immaterial once
the material's resolved shader function is passed explicitly). -/
structure Sphere where
  p : Float3
  c : Float3
  fn : Bool
deriving DecidableEq, Repr

/-- The renderer-side Lambert BxDF record built by `get_bxdf`:
color, center, flip-normal. -/
structure Lambert where
  lcolor : Float3
  lcenter : Float3
  lflip : Bool
deriving DecidableEq, Repr

/-- `get_bxdf` of `rt_tsl.cpp`, translated from the source.  The
material's resolved raw shader function is passed explicitly
(`none` models a null `m_shader_func`); the shader's output closure
pointer is `Option` (`none` models a shader run that left the closure
null, which the C++ then dereferences — modelled as no result). -/
def get_bxdf (g_closure_lambert : Nat)
    (shader_func : Option (TslGlobal → Option ClosureTreeNodeLambert))
    (obj : Sphere) : Option Lambert :=
  let tsl_global : TslGlobal := ⟨obj.c, obj.p, obj.fn⟩
  match shader_func with
  | none => some ⟨⟨1, 0, 0⟩, obj.p, obj.fn⟩
  | some f =>
    match f tsl_global with
    | none => none
    | some closure =>
      if closure.m_id == g_closure_lambert then
        some ⟨obj.c, closure.m_params.sphere_center,
              closure.m_params.flip_normal⟩
      else
        some ⟨⟨1, 0, 0⟩, obj.p, obj.fn⟩

/-- C10: assuming the shader (when present and run) writes a non-null
closure, `get_bxdf` always returns a BxDF; with no resolved shader
function it returns the default Lambert with color (1,0,0) without
consulting any closure; when the written closure's id differs from the
registered lambert id it likewise returns the default Lambert with color
(1,0,0); only when the ids match is the closure's field data used. -/
theorem get_bxdf_total_and_fallbacks (gid : Nat)
    (sf : Option (TslGlobal → Option ClosureTreeNodeLambert)) (obj : Sphere)
    (hrun : ∀ f, sf = some f → ∃ cl, f ⟨obj.c, obj.p, obj.fn⟩ = some cl) :
    (∃ b, get_bxdf gid sf obj = some b) ∧
    (sf = none → get_bxdf gid sf obj = some ⟨⟨1, 0, 0⟩, obj.p, obj.fn⟩) ∧
    (∀ f cl, sf = some f → f ⟨obj.c, obj.p, obj.fn⟩ = some cl →
      cl.m_id ≠ gid →
      get_bxdf gid sf obj = some ⟨⟨1, 0, 0⟩, obj.p, obj.fn⟩) ∧
    (∀ f cl, sf = some f → f ⟨obj.c, obj.p, obj.fn⟩ = some cl →
      cl.m_id = gid →
      get_bxdf gid sf obj =
        some ⟨obj.c, cl.m_params.sphere_center,
              cl.m_params.flip_normal⟩) := by
  refine ⟨?_, ?_, ?_, ?_⟩
  · cases hsf : sf with
    | none => exact ⟨_, rfl⟩
    | some f =>
        obtain ⟨cl, hcl⟩ := hrun f hsf
        by_cases hid : cl.m_id = gid
        · refine ⟨⟨obj.c, cl.m_params.sphere_center,
            cl.m_params.flip_normal⟩, ?_⟩
          unfold get_bxdf
          simp only [hcl]
          rw [if_pos (beq_iff_eq.mpr hid)]
        · refine ⟨⟨⟨1, 0, 0⟩, obj.p, obj.fn⟩, ?_⟩
          unfold get_bxdf
          simp only [hcl]
          rw [if_neg ?_]
          rw [beq_iff_eq]
          exact hid
  · intro hsf
    unfold get_bxdf
    rw [hsf]
  · intro f cl hsf hcl hid
    unfold get_bxdf
    simp only [hsf, hcl]
    rw [if_neg ?_]
    rw [beq_iff_eq]
    exact hid
  · intro f cl hsf hcl hid
    unfold get_bxdf
    simp only [hsf, hcl]
    rw [if_pos (beq_iff_eq.mpr hid)]

/-- Witness for C10: a concrete sphere and a shader that writes a
lambert closure with the matching id 1; the closure's field data is
used. -/
theorem get_bxdf_total_and_fallbacks_witness :
    (∃ b, get_bxdf 1
      (some (fun g => some ⟨1, ⟨g.base_color, g.center, g.flip_normal⟩⟩))
      ⟨⟨0, 0, 0⟩, ⟨1, 0, 0⟩, false⟩ = some b) ∧
    ((some (fun g => some ⟨1, ⟨g.base_color, g.center, g.flip_normal⟩⟩) :
        Option (TslGlobal → Option ClosureTreeNodeLambert)) = none →
      get_bxdf 1
        (some (fun g => some ⟨1, ⟨g.base_color, g.center, g.flip_normal⟩⟩))
        ⟨⟨0, 0, 0⟩, ⟨1, 0, 0⟩, false⟩ =
        some ⟨⟨1, 0, 0⟩, ⟨0, 0, 0⟩, false⟩) ∧
    (∀ f cl, (some (fun g =>
        some ⟨1, ⟨g.base_color, g.center, g.flip_normal⟩⟩) :
        Option (TslGlobal → Option ClosureTreeNodeLambert)) = some f →
      f ⟨⟨1, 0, 0⟩, ⟨0, 0, 0⟩, false⟩ = some cl → cl.m_id ≠ 1 →
      get_bxdf 1
        (some (fun g => some ⟨1, ⟨g.base_color, g.center, g.flip_normal⟩⟩))
        ⟨⟨0, 0, 0⟩, ⟨1, 0, 0⟩, false⟩ =
        some ⟨⟨1, 0, 0⟩, ⟨0, 0, 0⟩, false⟩) ∧
    (∀ f cl, (some (fun g =>
        some ⟨1, ⟨g.base_color, g.center, g.flip_normal⟩⟩) :
        Option (TslGlobal → Option ClosureTreeNodeLambert)) = some f →
      f ⟨⟨1, 0, 0⟩, ⟨0, 0, 0⟩, false⟩ = some cl → cl.m_id = 1 →
      get_bxdf 1
        (some (fun g => some ⟨1, ⟨g.base_color, g.center, g.flip_normal⟩⟩))
        ⟨⟨0, 0, 0⟩, ⟨1, 0, 0⟩, false⟩ =
        some ⟨⟨1, 0, 0⟩, cl.m_params.sphere_center,
              cl.m_params.flip_normal⟩) :=
  get_bxdf_total_and_fallbacks 1
    (some (fun g => some ⟨1, ⟨g.base_color, g.center, g.flip_normal⟩⟩))
    ⟨⟨0, 0, 0⟩, ⟨1, 0, 0⟩, false⟩
    (fun f hf => ⟨⟨1, ⟨⟨1, 0, 0⟩, ⟨0, 0, 0⟩, false⟩⟩, by
      injection hf with hf
      rw [← hf]⟩)

end TslSpec
